import Mathlib

/-!
A shallow embedding of the dataset store in `internal/psql/dataset.go`
(package `psql` of qvain-api), together with proofs about it.

The `datasets` relation is modelled as an association list from record
ids to rows; the primary key on `id` means a well-formed state has no
duplicate keys (`WF`).  SQL statements are modelled one-to-one:

* `UPDATE … WHERE id = $1` rewrites every matching row and reports the
  number of matching rows as its affected-row count;
* `SELECT … WHERE id = $1` through `QueryRow` yields the first matching
  row, and scanning with no rows yields the driver's no-rows error;
* the jsonb concatenation operator `||` used by `patch` is the shallow
  top-level object merge `jsonbConcat`;
* a transaction is begin / statements / commit with a deferred rollback:
  each `DB.…` operation returns the new state on commit and the original
  state paired with the error on any failing step.

Timestamps (`now()`, `time.Now()`) enter as an explicit `now` argument;
machine-level engine failures (lost connections and the like) are not
modelled, every other control path of the source is.
-/

/-- Record and principal identifiers: an opaque, comparable identity
(`uuid.UUID` in the source). -/
abbrev UUID := Nat

/-- Timestamps produced by `now()` / `time.Now()`. -/
abbrev Time := Nat

/-- A JSON value, as stored in the `blob` column (jsonb). -/
inductive JVal where
  | null
  | bool (b : Bool)
  | num (n : Int)
  | str (s : String)
  | arr (xs : List JVal)
  | obj (fields : List (String × JVal))

/-- A top-level JSON object: the shape of a dataset's `blob` document. -/
abbrev JObj := List (String × JVal)

/-- Key lookup in a JSON object (first binding wins, as in jsonb where
keys are unique). -/
def jlookup : JObj → String → Option JVal
  | [], _ => none
  | kv :: rest, k => if kv.1 = k then some kv.2 else jlookup rest k

/-- The jsonb concatenation operator `||` of `blob = blob || $2`: a
shallow top-level merge in which every key of the right operand wins and
the remaining keys of the left operand are kept. -/
def jsonbConcat (a b : JObj) : JObj :=
  a.filter (fun kv => (jlookup b kv.1).isNone) ++ b

/-- First row matching an id: the single row `QueryRow`/`UPDATE … WHERE
id = $1` addresses under the primary key. -/
def lookupBy {β : Type} : List (UUID × β) → UUID → Option β
  | [], _ => none
  | kv :: rest, id => if kv.1 = id then some kv.2 else lookupBy rest id

/-- `UPDATE … WHERE id = $1`: rewrite every row whose key matches. -/
def updateWhere {β : Type} (l : List (UUID × β)) (id : UUID) (f : β → β) :
    List (UUID × β) :=
  l.map (fun kv => if kv.1 = id then (kv.1, f kv.2) else kv)

/-- Number of rows matching an id: the affected-row count of an
`UPDATE`/`DELETE … WHERE id = $1`. -/
def countMatching {β : Type} : List (UUID × β) → UUID → Nat
  | [], _ => 0
  | kv :: rest, id => (if kv.1 = id then 1 else 0) + countMatching rest id

/-- `DELETE FROM … WHERE id = $1`: drop every row whose key matches. -/
def deleteWhere {β : Type} : List (UUID × β) → UUID → List (UUID × β)
  | [], _ => []
  | kv :: rest, id =>
      if kv.1 = id then deleteWhere rest id else kv :: deleteWhere rest id

/-- The error taxonomy visible to this layer: the driver's no-rows
result, the package's `ErrNotFound` and `ErrNotOwner`, and any other
engine error (constraint violation, undefined column, bad scan target). -/
inductive DbError where
  | noRows
  | notFound
  | notOwner
  | storage (msg : String)
  deriving DecidableEq, Repr

/-- Modelled from the spec: `handleError` (defined outside this source
file) maps the driver's "no row matched" result to `NotFound` and passes
every other error through unchanged (spec section 7). -/
def handleError : DbError → DbError
  | .noRows => .notFound
  | e => e

/-- One row of the `datasets` relation (spec section 6 lists the
columns; `id` is the association-list key and is kept outside). -/
structure Row where
  creator : UUID
  owner : UUID
  created : Time
  modified : Time
  synced : Time
  published : Bool
  valid : Bool
  family : Nat
  schema : String
  blob : JObj
  seq : Nat

/-- The persisted state: the `datasets` relation. -/
abbrev Db := List (UUID × Row)

/-- Well-formed state: the primary key on `id` holds (no duplicate ids). -/
abbrev WF (db : Db) : Prop := (db.map Prod.fst).Nodup

/-- The caller-supplied part of a `models.Dataset` handed to `Store`:
the columns its `INSERT` provides (id, creator, owner, family, schema,
blob via the model's accessors). -/
structure NewDataset where
  id : UUID
  creator : UUID
  owner : UUID
  family : Nat
  schema : String
  blob : JObj

/-- Modelled from the spec: a family descriptor as returned by
`models.LookupFamily` — `IsPartial()` tells whether the family's
documents are updated by merge-patch, `Key()` is the sub-path used for
partial projection (spec section 6). -/
structure Family where
  isPartial : Bool
  key : String

/-- The observable fields of a `models.Dataset` returned by the read
path (`Id`, `Creator`, `Owner` scanned directly; family, schema and blob
via `SetData`; valid via `SetValid`). -/
structure ModelsDataset where
  id : UUID
  creator : UUID
  owner : UUID
  family : Nat
  schema : String
  blob : JObj
  valid : Bool

/-- Modelled from the spec: `models.Dataset.SetData(family, schema,
blob)` validates raw parts and populates the record, failing on
malformed input (spec section 6).  Blobs are modelled as already-parsed
JSON objects, so the decode step cannot fail and the parts are stored as
given; schema validation is outside this core's scope (spec section 1). -/
def setData (family : Nat) (schema : String) (blob : JObj) :
    Except DbError (Nat × String × JObj) :=
  .ok (family, schema, blob)

/-! ## Transaction-level primitives (`Tx` methods of dataset.go) -/

/-- `Tx.Store`: `INSERT INTO datasets(id, creator, owner, family,
schema, blob) VALUES(...)`.  The primary key rejects a duplicate id with
a constraint-violation engine error; the remaining columns take their
defaults (spec section 6: `seq` defaults to 0; creation timestamps and
flags are set by the schema, modelled as the insertion time and false —
no claim depends on them). -/
def Tx.Store (db : Db) (d : NewDataset) (now : Time) : Except DbError Db :=
  match lookupBy db d.id with
  | some _ => .error (.storage "duplicate key value violates unique constraint")
  | none =>
      .ok (db ++ [(d.id,
        { creator := d.creator, owner := d.owner,
          created := now, modified := now, synced := now,
          published := false, valid := false,
          family := d.family, schema := d.schema,
          blob := d.blob, seq := 0 })])

/-- `Tx.update` (user-triggered): `UPDATE datasets SET modified = now(),
seq = seq + 1, blob = $2 WHERE id = $1`, then `ErrNotFound` unless the
affected-row count is exactly 1. -/
def Tx.update (db : Db) (id : UUID) (blob : JObj) (now : Time) :
    Except DbError Db :=
  if countMatching db id = 1 then
    .ok (updateWhere db id (fun r =>
      { r with modified := now, seq := r.seq + 1, blob := blob }))
  else .error .notFound

/-- `Tx.updateByService` (service-triggered): as `Tx.update` but sets
`synced = now()` instead of `modified`. -/
def Tx.updateByService (db : Db) (id : UUID) (blob : JObj) (now : Time) :
    Except DbError Db :=
  if countMatching db id = 1 then
    .ok (updateWhere db id (fun r =>
      { r with synced := now, seq := r.seq + 1, blob := blob }))
  else .error .notFound

/-- `Tx.patch`: `UPDATE datasets SET modified = now(), seq = seq + 1,
blob = blob || $2 WHERE id = $1`, then `ErrNotFound` unless the
affected-row count is exactly 1. -/
def Tx.patch (db : Db) (id : UUID) (blob : JObj) (now : Time) :
    Except DbError Db :=
  if countMatching db id = 1 then
    .ok (updateWhere db id (fun r =>
      { r with modified := now, seq := r.seq + 1,
               blob := jsonbConcat r.blob blob }))
  else .error .notFound

/-- `Tx.CheckOwner`: `SELECT (owner = $2) FROM datasets WHERE id = $1`
scanned into a boolean — a no-rows scan goes through `handleError`
(becoming `notFound`), a false comparison returns `ErrNotOwner`. -/
def Tx.CheckOwner (db : Db) (id : UUID) (owner : UUID) :
    Except DbError Unit :=
  match lookupBy db id with
  | none => .error (handleError .noRows)
  | some r => if r.owner = owner then .ok () else .error .notOwner

/-- `Tx.getFamily`: `SELECT family FROM datasets WHERE id = $1`, no-rows
mapped by `handleError`. -/
def Tx.getFamily (db : Db) (id : UUID) : Except DbError Nat :=
  match lookupBy db id with
  | none => .error (handleError .noRows)
  | some r => .ok r.family

/-- `Tx.markPublished`: `UPDATE datasets SET published = $2, synced = $3
WHERE id = $1` (with `$3 = time.Now()`), then `ErrNotFound` unless the
affected-row count is exactly 1. -/
def Tx.markPublished (db : Db) (id : UUID) (published : Bool) (now : Time) :
    Except DbError Db :=
  if countMatching db id = 1 then
    .ok (updateWhere db id (fun r =>
      { r with published := published, synced := now }))
  else .error .notFound

/-! ## Public operations (`DB` methods of dataset.go)

Each returns the state after the operation together with `none` on
commit or `some e` on a failing step; in the failing case the deferred
rollback leaves the original state. -/

/-- The begin / run one primitive / `handleError` on failure / commit
pattern shared by `DB.Store`, `DB.Update`, `DB.Patch` and the guarded
variants: on error the deferred rollback restores the original state. -/
def commitOrRollback (db : Db) (r : Except DbError Db) : Db × Option DbError :=
  match r with
  | .error e => (db, some (handleError e))
  | .ok db' => (db', none)

/-- `DB.ChangeOwnerTo`: `UPDATE datasets SET owner = $1 WHERE id = $2`,
the command tag only logged — no affected-row check — then commit. -/
def DB.ChangeOwnerTo (db : Db) (id : UUID) (uid : UUID) : Db × Option DbError :=
  (updateWhere db id (fun r => { r with owner := uid }), none)

/-- `DB.Store`: one insert in its own transaction. -/
def DB.Store (db : Db) (d : NewDataset) (now : Time) : Db × Option DbError :=
  commitOrRollback db (Tx.Store db d now)

/-- The loop body of `DB.BatchStore`: insert each dataset in turn inside
the one transaction, stopping at the first failure. -/
def batchLoop (db : Db) (ds : List NewDataset) (now : Time) : Except DbError Db :=
  match ds with
  | [] => .ok db
  | d :: rest =>
      match Tx.Store db d now with
      | .error e => .error e
      | .ok db' => batchLoop db' rest now

/-- `DB.BatchStore`: all inserts in one transaction; the first failing
insert rolls the whole batch back and its error is returned unwrapped. -/
def DB.BatchStore (db : Db) (ds : List NewDataset) (now : Time) :
    Db × Option DbError :=
  match batchLoop db ds now with
  | .error e => (db, some e)
  | .ok db' => (db', none)

/-- `DB.Update`: full replace in its own transaction. -/
def DB.Update (db : Db) (id : UUID) (blob : JObj) (now : Time) :
    Db × Option DbError :=
  commitOrRollback db (Tx.update db id blob now)

/-- `DB.UpdateWithOwner`: ownership guard, then full replace, in one
transaction; a guard failure is returned unwrapped. -/
def DB.UpdateWithOwner (db : Db) (id : UUID) (blob : JObj) (owner : UUID)
    (now : Time) : Db × Option DbError :=
  match Tx.CheckOwner db id owner with
  | .error e => (db, some e)
  | .ok _ => commitOrRollback db (Tx.update db id blob now)

/-- `DB.Patch`: merge patch in its own transaction. -/
def DB.Patch (db : Db) (id : UUID) (blob : JObj) (now : Time) :
    Db × Option DbError :=
  commitOrRollback db (Tx.patch db id blob now)

/-- `DB.PatchWithOwner`: ownership guard, then merge patch, in one
transaction; a guard failure is returned unwrapped. -/
def DB.PatchWithOwner (db : Db) (id : UUID) (blob : JObj) (owner : UUID)
    (now : Time) : Db × Option DbError :=
  match Tx.CheckOwner db id owner with
  | .error e => (db, some e)
  | .ok _ => commitOrRollback db (Tx.patch db id blob now)

/-- `DB.SmartUpdateWithOwner`: ownership guard, family read, family
policy lookup and the dispatched mutation, all in one transaction.
`models.LookupFamily` lives outside this core, so the family table
enters as the argument `lf`. -/
def DB.SmartUpdateWithOwner (lf : Nat → Except DbError Family) (db : Db)
    (id : UUID) (blob : JObj) (owner : UUID) (now : Time) :
    Db × Option DbError :=
  match Tx.CheckOwner db id owner with
  | .error e => (db, some e)
  | .ok _ =>
    match Tx.getFamily db id with
    | .error e => (db, some e)
    | .ok famId =>
      match lf famId with
      | .error e => (db, some e)
      | .ok family =>
          commitOrRollback db
            (if family.isPartial then Tx.patch db id blob now
             else Tx.update db id blob now)

/-- `DB.StorePublished`: `UPDATE datasets SET blob = $2, published =
true, synced = now(), seq = seq + 1 WHERE id = $1`, `ErrNotFound` unless
exactly one row is affected, then commit. -/
def DB.StorePublished (db : Db) (id : UUID) (blob : JObj) (now : Time) :
    Db × Option DbError :=
  if countMatching db id = 1 then
    (updateWhere db id (fun r =>
      { r with blob := blob, published := true, synced := now,
               seq := r.seq + 1 }), none)
  else (db, some .notFound)

/-- `DB.MarkPublished`: publish-flag transition in its own transaction;
a primitive failure is returned unwrapped. -/
def DB.MarkPublished (db : Db) (id : UUID) (published : Bool) (now : Time) :
    Db × Option DbError :=
  match Tx.markPublished db id published now with
  | .error e => (db, some e)
  | .ok db' => (db', none)

/-- `DB.MarkPublishedWithOwner`: ownership guard, then the publish-flag
transition, in one transaction. -/
def DB.MarkPublishedWithOwner (db : Db) (id : UUID) (owner : UUID)
    (published : Bool) (now : Time) : Db × Option DbError :=
  match Tx.CheckOwner db id owner with
  | .error e => (db, some e)
  | .ok _ =>
    match Tx.markPublished db id published now with
    | .error e => (db, some e)
    | .ok db' => (db', none)

/-- `DB.Delete`: optional ownership guard (its failure wrapped by
`handleError`), then `DELETE FROM datasets WHERE id = $1` with
`ErrNotFound` unless exactly one row is affected, then commit. -/
def DB.Delete (db : Db) (id : UUID) (owner : Option UUID) : Db × Option DbError :=
  match owner with
  | some o =>
      match Tx.CheckOwner db id o with
      | .error e => (db, some (handleError e))
      | .ok _ =>
          if countMatching db id = 1 then (deleteWhere db id, none)
          else (db, some .notFound)
  | none =>
      if countMatching db id = 1 then (deleteWhere db id, none)
      else (db, some .notFound)

/-! ## Read path

`DB.Get` scans `valid`, `family` and `schema` into pointers and
dereferences them without a nil check; the row-level model therefore
keeps these columns nullable (`Option`), and a Go nil-pointer
dereference is a distinct outcome, not an error return. -/

/-- Outcome of a Go call: a value, a returned error, or a runtime
nil-pointer dereference (panic). -/
inductive GoResult (α : Type) where
  | ok (a : α)
  | err (e : DbError)
  | nilDeref

/-- The row shape scanned by `DB.Get` (`select id, creator, owner,
valid, family, schema, blob`): `valid`, `family` and `schema` are
scanned into pointers and may be null. -/
structure RawGetRow where
  id : UUID
  creator : UUID
  owner : UUID
  valid : Option Bool
  family : Option Nat
  schema : Option String
  blob : JObj

/-- The body of `DB.Get` after `QueryRow`: a no-rows scan goes through
`handleError`; otherwise `*family` and `*schema` are dereferenced for
`SetData`, and `*valid` for `SetValid`, each without a nil guard. -/
def DB.getScan (row : Option RawGetRow) : GoResult ModelsDataset :=
  match row with
  | none => .err (handleError .noRows)
  | some row =>
    match row.family with
    | none => .nilDeref
    | some f =>
      match row.schema with
      | none => .nilDeref
      | some s =>
        match setData f s row.blob with
        | .error e => .err e
        | .ok (f', s', b') =>
          match row.valid with
          | none => .nilDeref
          | some v =>
              .ok { id := row.id, creator := row.creator, owner := row.owner,
                    family := f', schema := s', blob := b', valid := v }

/-- `DB.Get` over a raw state whose nullable columns are arbitrary: the
unguarded-dereference question lives here. -/
def DB.GetRaw (rdb : List (UUID × RawGetRow)) (id : UUID) :
    GoResult ModelsDataset :=
  DB.getScan (lookupBy rdb id)

/-- The queried row of `DB.Get` for a well-formed state, where every
column is populated. -/
def Row.projectGet (id : UUID) (r : Row) : RawGetRow :=
  { id := id, creator := r.creator, owner := r.owner,
    valid := some r.valid, family := some r.family,
    schema := some r.schema, blob := r.blob }

/-- `DB.Get` on a well-formed state (spec section 3: an existing record
has all fields populated). -/
def DB.Get (db : Db) (id : UUID) : GoResult ModelsDataset :=
  DB.getScan ((lookupBy db id).map (Row.projectGet id))

/-- The row shape scanned by the internal `Tx.get` (`select id, creator,
owner, family, schema, blob`, the blob possibly projected by
`blob#>$2`): `family` and `schema` are scanned into pointers and may be
null; `valid` is not selected. -/
structure RawTxRow where
  id : UUID
  creator : UUID
  owner : UUID
  family : Option Nat
  schema : Option String
  blob : JObj

/-- The body of `Tx.get` after `QueryRow`: `*family` and `*schema` are
dereferenced for `SetData` without a nil guard; `SetValid` is not
called, so the returned record keeps the model's zero value for
`valid`. -/
def Tx.getScan (row : Option RawTxRow) : GoResult ModelsDataset :=
  match row with
  | none => .err (handleError .noRows)
  | some row =>
    match row.family with
    | none => .nilDeref
    | some f =>
      match row.schema with
      | none => .nilDeref
      | some s =>
        match setData f s row.blob with
        | .error e => .err e
        | .ok (f', s', b') =>
            .ok { id := row.id, creator := row.creator, owner := row.owner,
                  family := f', schema := s', blob := b', valid := false }

/-- `Tx.get` over a raw state whose nullable columns are arbitrary. -/
def Tx.getRaw (rdb : List (UUID × RawTxRow)) (id : UUID) :
    GoResult ModelsDataset :=
  Tx.getScan (lookupBy rdb id)

/-! ## Clone

The source statement is

  INSERT INTO datasets(id, creator, owner, created, modified, synced,
                       published, valid, family, schema, blob)
  (SELECT $2, creator, owner, created, modified, synced, published,
          valid, family, schema, $3 WHERE id = $1)

whose inner SELECT has no FROM clause: a FROM-less SELECT ranges over a
single empty row that provides no columns, so its column references
(`creator`, …, and `id` in the WHERE clause) do not resolve and the
engine rejects the statement before any row is produced.  The model
keeps the statement's column references and its (empty) FROM list and
resolves the references against it, exactly as the engine does. -/

/-- The column references the Clone SELECT must resolve. -/
def cloneSelectColumns : List String :=
  ["creator", "owner", "created", "modified", "synced",
   "published", "valid", "family", "schema", "id"]

/-- The FROM list of the Clone SELECT, as written in the source: empty. -/
def cloneFromTables : List String := []

/-- Columns of the `datasets` relation (spec section 6). -/
def tableColumns : String → List String
  | "datasets" =>
      ["id", "creator", "owner", "created", "modified", "synced",
       "published", "valid", "family", "schema", "blob", "seq"]
  | _ => []

/-- Whether every column reference of the Clone SELECT resolves against
its FROM list. -/
def cloneColumnsResolve : Bool :=
  cloneSelectColumns.all (fun c =>
    cloneFromTables.any (fun t => (tableColumns t).contains c))

/-- `DB.Clone`: the INSERT…SELECT above, then `ErrNotFound` unless
exactly one row was inserted, then commit.  If a column reference fails
to resolve the engine rejects the statement and the error path
(`handleError`, rollback) is taken before any row check. -/
def DB.Clone (db : Db) (id : UUID) (newid : UUID) (blob : JObj) :
    Db × Option DbError :=
  if cloneColumnsResolve then
    match lookupBy db id with
    | some r =>
        ((db ++ [(newid, { r with blob := blob })]), none)
    | none => (db, some .notFound)
  else (db, some (handleError (.storage "column does not exist")))

/-! ## ListAllForUid

The source iterates `select id, creator, owner, family, schema, valid
from datasets where owner=$1` and calls

  rows.Scan(dataset.Id, dataset.Creator, dataset.Owner, family, schema, valid)

passing plain values where `Scan` requires addressable (pointer)
destinations; the binding layer rejects such a destination when the
first row is scanned.  The model records the addressability of each of
the six destinations as written in the source. -/

/-- Whether each destination passed to `rows.Scan` in the list loop is a
pointer: in the source all six are plain values. -/
def listScanDestsAddressable : List Bool :=
  [false, false, false, false, false, false]

/-- One `rows.Scan` of the list loop: succeeds with the row's projected
fields only if every destination is addressable, otherwise the binding
layer returns an error. -/
def listScanRow (id : UUID) (r : Row) : Except DbError ModelsDataset :=
  if listScanDestsAddressable.all (fun b => b) then
    .ok { id := id, creator := r.creator, owner := r.owner,
          family := r.family, schema := r.schema, blob := [], valid := r.valid }
  else .error (.storage "Scan: destination is not a pointer")

/-- The rows matched by `where owner=$1`. -/
def rowsOwnedBy (db : Db) (uid : UUID) : List (UUID × Row) :=
  db.filter (fun kv => kv.2.owner = uid)

/-- The `rows.Next()` loop of `DB.ListAllForUid`: scan each row,
aborting with a scan error. -/
def listLoop : List (UUID × Row) → Except DbError (List ModelsDataset)
  | [] => .ok []
  | (id, r) :: rest =>
      match listScanRow id r with
      | .error e => .error e
      | .ok d =>
          match listLoop rest with
          | .error e => .error e
          | .ok ds => .ok (d :: ds)

/-- `DB.ListAllForUid`: query the rows owned by `uid` and scan each. -/
def DB.ListAllForUid (db : Db) (uid : UUID) :
    Except DbError (List ModelsDataset) :=
  listLoop (rowsOwnedBy db uid)

/-! ## The mutating operations as a step relation (for the `seq`
invariant) -/

/-- One invocation of a mutating public operation. -/
inductive Op where
  | changeOwnerTo (id : UUID) (uid : UUID)
  | store (d : NewDataset)
  | batchStore (ds : List NewDataset)
  | update (id : UUID) (blob : JObj)
  | updateWithOwner (id : UUID) (blob : JObj) (owner : UUID)
  | patch (id : UUID) (blob : JObj)
  | patchWithOwner (id : UUID) (blob : JObj) (owner : UUID)
  | smartUpdateWithOwner (id : UUID) (blob : JObj) (owner : UUID)
  | serviceUpdate (id : UUID) (blob : JObj)
  | storePublished (id : UUID) (blob : JObj)
  | clone (id : UUID) (newid : UUID) (blob : JObj)
  | markPublished (id : UUID) (published : Bool)
  | markPublishedWithOwner (id : UUID) (owner : UUID) (published : Bool)
  | delete (id : UUID) (owner : Option UUID)

/-- Run one operation.  `Tx.updateByService` has no public wrapper in
this source file (its caller is service-side code elsewhere in the
repository); it is run under the same one-primitive transaction pattern
as `DB.Update`. -/
def applyOp (lf : Nat → Except DbError Family) (now : Time) (db : Db) :
    Op → Db × Option DbError
  | .changeOwnerTo id uid => DB.ChangeOwnerTo db id uid
  | .store d => DB.Store db d now
  | .batchStore ds => DB.BatchStore db ds now
  | .update id blob => DB.Update db id blob now
  | .updateWithOwner id blob owner => DB.UpdateWithOwner db id blob owner now
  | .patch id blob => DB.Patch db id blob now
  | .patchWithOwner id blob owner => DB.PatchWithOwner db id blob owner now
  | .smartUpdateWithOwner id blob owner =>
      DB.SmartUpdateWithOwner lf db id blob owner now
  | .serviceUpdate id blob => commitOrRollback db (Tx.updateByService db id blob now)
  | .storePublished id blob => DB.StorePublished db id blob now
  | .clone id newid blob => DB.Clone db id newid blob
  | .markPublished id published => DB.MarkPublished db id published now
  | .markPublishedWithOwner id owner published =>
      DB.MarkPublishedWithOwner db id owner published now
  | .delete id owner => DB.Delete db id owner

/-- Run a sequence of operations, each with its own timestamp. -/
def applySeq (lf : Nat → Except DbError Family) (db : Db) :
    List (Op × Time) → Db
  | [] => db
  | (op, t) :: rest => applySeq lf (applyOp lf t db op).1 rest

/-- The record at `id` exists in the starting state and in every state
the sequence passes through. -/
def existsThrough (lf : Nat → Except DbError Family) (db : Db) (id : UUID) :
    List (Op × Time) → Prop
  | [] => (lookupBy db id).isSome = true
  | (op, t) :: rest =>
      (lookupBy db id).isSome = true ∧
        existsThrough lf (applyOp lf t db op).1 id rest

/-- The record a content-mutating write targets (full replace, merge
patch, the dispatched smart update, the service replace and
`StorePublished`); `none` for the other operations. -/
def contentWriteTarget : Op → Option UUID
  | .update id _ => some id
  | .updateWithOwner id _ _ => some id
  | .patch id _ => some id
  | .patchWithOwner id _ _ => some id
  | .smartUpdateWithOwner id _ _ => some id
  | .serviceUpdate id _ => some id
  | .storePublished id _ => some id
  | _ => none

/-- The record and flag a publish-only transition targets; `none` for
the other operations. -/
def publishOnlyTarget : Op → Option (UUID × Bool)
  | .markPublished id p => some (id, p)
  | .markPublishedWithOwner id _ p => some (id, p)
  | _ => none

/-- `DB.CheckOwner`: runs the transaction-level guard in its own
(read-only, never committed) transaction and returns its error, `none`
meaning success. -/
def DB.CheckOwner (db : Db) (id : UUID) (owner : UUID) : Option DbError :=
  match Tx.CheckOwner db id owner with
  | .error e => some e
  | .ok _ => none

/-! ## Concrete states used to instantiate the theorems -/

/-- A stored record of the merge-patch family (`lf0 1` below). -/
def rA : Row :=
  { creator := 10, owner := 100, created := 1, modified := 1, synced := 1,
    published := false, valid := true, family := 1, schema := "metax",
    blob := [("title", JVal.str "a"), ("size", JVal.num 3)], seq := 5 }

/-- A stored record of the full-replace family (`lf0 2` below). -/
def rB : Row :=
  { rA with family := 2, seq := 2 }

/-- A two-record state, both records owned by principal 100. -/
def dbW : Db := [(1, rA), (2, rB)]

/-- A patch document touching one existing key. -/
def pW : JObj := [("title", JVal.str "b")]

/-- A family table with one partial and one non-partial family. -/
def lf0 : Nat → Except DbError Family :=
  fun n =>
    if n = 1 then .ok { isPartial := true, key := "research_dataset" }
    else if n = 2 then .ok { isPartial := false, key := "" }
    else .error (.storage "unknown family")

/-- A fresh dataset for the batch witness. -/
def dNew : NewDataset :=
  { id := 3, creator := 10, owner := 100, family := 1, schema := "s", blob := [] }

/-- A dataset whose id collides with the stored id 1. -/
def dDup : NewDataset :=
  { id := 1, creator := 10, owner := 100, family := 1, schema := "s", blob := [] }

/-- A batch whose second insert collides with the stored id 1. -/
def dsW : List NewDataset := [dNew, dDup]

/-- The row the batch's first insert creates at time 7. -/
def rNew : Row :=
  { creator := 10, owner := 100, created := 7, modified := 7, synced := 7,
    published := false, valid := false, family := 1, schema := "s",
    blob := [], seq := 0 }

/-- A fully populated raw row for the `DB.Get` read path. -/
def rgPop : RawGetRow :=
  { id := 1, creator := 10, owner := 100, valid := some true,
    family := some 1, schema := some "s", blob := [] }

/-- The same raw row with a null `family` column. -/
def rgNull : RawGetRow := { rgPop with family := none }

/-- Raw states holding the two rows above. -/
def rdbPop : List (UUID × RawGetRow) := [(1, rgPop)]

def rdbNull : List (UUID × RawGetRow) := [(1, rgNull)]

/-- A fully populated raw row for the internal `Tx.get` read path. -/
def rtPop : RawTxRow :=
  { id := 1, creator := 10, owner := 100, family := some 1,
    schema := some "s", blob := [] }

def tdbPop : List (UUID × RawTxRow) := [(1, rtPop)]

/-! ## Helper lemmas about the relation model -/

theorem lookupBy_cons {β : Type} (kv : UUID × β) (rest : List (UUID × β))
    (j : UUID) :
    lookupBy (kv :: rest) j =
      if kv.1 = j then some kv.2 else lookupBy rest j := rfl

theorem lookupBy_updateWhere {β : Type} (l : List (UUID × β)) (id : UUID)
    (f : β → β) (j : UUID) :
    lookupBy (updateWhere l id f) j =
      if j = id then (lookupBy l j).map f else lookupBy l j := by
  induction l with
  | nil =>
    simp only [updateWhere, List.map_nil, lookupBy, Option.map_none']
    split <;> rfl
  | cons kv rest ih =>
    simp only [updateWhere, List.map_cons] at ih ⊢
    by_cases h1 : kv.1 = id <;> by_cases h2 : kv.1 = j <;>
      by_cases hj : j = id <;>
      simp_all [lookupBy_cons]

theorem lookupBy_append {β : Type} (l m : List (UUID × β)) (j : UUID) :
    lookupBy (l ++ m) j =
      match lookupBy l j with
      | some r => some r
      | none => lookupBy m j := by
  induction l with
  | nil => simp [lookupBy]
  | cons kv rest ih =>
    simp only [List.cons_append, lookupBy_cons]
    by_cases h : kv.1 = j
    · simp [h]
    · simp [h, ih]

theorem lookupBy_append_left {β : Type} {l : List (UUID × β)} {j : UUID}
    {r : β} (m : List (UUID × β)) (h : lookupBy l j = some r) :
    lookupBy (l ++ m) j = some r := by
  rw [lookupBy_append, h]

theorem lookupBy_deleteWhere {β : Type} (l : List (UUID × β)) (id j : UUID) :
    lookupBy (deleteWhere l id) j =
      if j = id then none else lookupBy l j := by
  induction l with
  | nil => simp only [deleteWhere, lookupBy]; split <;> rfl
  | cons kv rest ih =>
    simp only [deleteWhere]
    by_cases h1 : kv.1 = id <;> by_cases h2 : kv.1 = j <;>
      by_cases hj : j = id <;>
      simp_all [lookupBy_cons]

theorem countMatching_zero_of_not_mem {β : Type} {l : List (UUID × β)}
    {id : UUID} (h : id ∉ l.map Prod.fst) : countMatching l id = 0 := by
  induction l with
  | nil => rfl
  | cons kv rest ih =>
    simp only [List.map_cons, List.mem_cons, not_or] at h
    rw [countMatching, if_neg (fun he => h.1 he.symm), ih h.2]

theorem countMatching_one_of_wf {db : Db} {id : UUID} {r : Row}
    (hwf : WF db) (h : lookupBy db id = some r) : countMatching db id = 1 := by
  induction db with
  | nil => simp [lookupBy] at h
  | cons kv rest ih =>
    have hw : kv.1 ∉ rest.map Prod.fst ∧ WF rest := by
      simpa [WF, List.nodup_cons] using hwf
    rw [lookupBy_cons] at h
    rw [countMatching]
    by_cases h1 : kv.1 = id
    · rw [if_pos h1]
      rw [countMatching_zero_of_not_mem (h1 ▸ hw.1)]
    · rw [if_neg h1, ih hw.2 (by rwa [if_neg h1] at h)]

/-! ## The shallow-merge characterization of jsonb concatenation -/

theorem jlookup_append (a b : JObj) (k : String) :
    jlookup (a ++ b) k =
      match jlookup a k with
      | some v => some v
      | none => jlookup b k := by
  induction a with
  | nil => simp [jlookup]
  | cons kv rest ih =>
    simp only [List.cons_append, jlookup]
    by_cases h : kv.1 = k
    · simp [h]
    · simp [h, ih]

theorem jlookup_filter_keep (a b : JObj) (k : String) :
    jlookup (a.filter (fun kv => (jlookup b kv.1).isNone)) k =
      if (jlookup b k).isNone then jlookup a k else none := by
  induction a with
  | nil => simp only [List.filter_nil, jlookup]; split <;> rfl
  | cons kv rest ih =>
    simp only [List.filter_cons]
    by_cases hk : kv.1 = k
    · subst hk
      by_cases hb : (jlookup b kv.1).isNone
      · simp [hb, jlookup, ih]
      · simp [hb, ih]
    · by_cases hb : (jlookup b kv.1).isNone
      · simp [hb, jlookup, hk, ih]
      · simp [hb, ih, jlookup, hk]

/-- The key-level reading of `jsonbConcat`: a key present in the patch
takes the patch's value wholesale, every other key keeps the original
document's value. -/
theorem jlookup_jsonbConcat (a b : JObj) (k : String) :
    jlookup (jsonbConcat a b) k =
      match jlookup b k with
      | some v => some v
      | none => jlookup a k := by
  rw [jsonbConcat, jlookup_append, jlookup_filter_keep]
  cases h : jlookup b k with
  | none => simp only [h, Option.isNone_none, if_true]; cases jlookup a k <;> rfl
  | some v => simp [h]

/-! ## Success and failure shapes of the primitives -/

theorem Tx.update_ok_iff {db : Db} {id : UUID} {blob : JObj} {now : Time}
    {db' : Db} :
    Tx.update db id blob now = .ok db' ↔
      countMatching db id = 1 ∧
        db' = updateWhere db id (fun r =>
          { r with modified := now, seq := r.seq + 1, blob := blob }) := by
  unfold Tx.update
  split
  · next h => simp only [Except.ok.injEq, h, true_and]; exact eq_comm
  · next h => simp [h]

theorem Tx.patch_ok_iff {db : Db} {id : UUID} {blob : JObj} {now : Time}
    {db' : Db} :
    Tx.patch db id blob now = .ok db' ↔
      countMatching db id = 1 ∧
        db' = updateWhere db id (fun r =>
          { r with modified := now, seq := r.seq + 1,
                   blob := jsonbConcat r.blob blob }) := by
  unfold Tx.patch
  split
  · next h => simp only [Except.ok.injEq, h, true_and]; exact eq_comm
  · next h => simp [h]

theorem Tx.updateByService_ok_iff {db : Db} {id : UUID} {blob : JObj}
    {now : Time} {db' : Db} :
    Tx.updateByService db id blob now = .ok db' ↔
      countMatching db id = 1 ∧
        db' = updateWhere db id (fun r =>
          { r with synced := now, seq := r.seq + 1, blob := blob }) := by
  unfold Tx.updateByService
  split
  · next h => simp only [Except.ok.injEq, h, true_and]; exact eq_comm
  · next h => simp [h]

theorem Tx.markPublished_ok_iff {db : Db} {id : UUID} {published : Bool}
    {now : Time} {db' : Db} :
    Tx.markPublished db id published now = .ok db' ↔
      countMatching db id = 1 ∧
        db' = updateWhere db id (fun r =>
          { r with published := published, synced := now }) := by
  unfold Tx.markPublished
  split
  · next h => simp only [Except.ok.injEq, h, true_and]; exact eq_comm
  · next h => simp [h]

theorem batchLoop_preserves {now : Time} {ds : List NewDataset} {db db' : Db}
    (h : batchLoop db ds now = .ok db') {id : UUID} {r : Row}
    (hr : lookupBy db id = some r) : lookupBy db' id = some r := by
  induction ds generalizing db with
  | nil =>
    rw [batchLoop] at h
    cases h
    exact hr
  | cons d rest ih =>
    rw [batchLoop] at h
    cases hs : Tx.Store db d now with
    | error e => rw [hs] at h; cases h
    | ok db1 =>
      rw [hs] at h
      refine ih h ?_
      unfold Tx.Store at hs
      cases hl : lookupBy db d.id with
      | some _ => rw [hl] at hs; cases hs
      | none =>
        rw [hl] at hs
        cases hs
        exact lookupBy_append_left _ hr

/-! ## Monotonicity of `seq` under every operation -/

/-- Between two states, the version counter of any record present in
both never went down. -/
def SeqMono (db db' : Db) : Prop :=
  ∀ id r r', lookupBy db id = some r → lookupBy db' id = some r' →
    r.seq ≤ r'.seq

theorem SeqMono.rfl (db : Db) : SeqMono db db := by
  intro id r r' h h'
  rw [h] at h'
  cases h'
  exact Nat.le_refl _

theorem seqMono_updateWhere (db : Db) (id0 : UUID) (f : Row → Row)
    (hf : ∀ r, r.seq ≤ (f r).seq) : SeqMono db (updateWhere db id0 f) := by
  intro id r r' h h'
  rw [lookupBy_updateWhere] at h'
  by_cases hj : id = id0
  · rw [if_pos hj, h] at h'
    cases h'
    exact hf r
  · rw [if_neg hj, h] at h'
    cases h'
    exact Nat.le_refl _

theorem seqMono_append (db : Db) (l : List (UUID × Row)) :
    SeqMono db (db ++ l) := by
  intro id r r' h h'
  rw [lookupBy_append_left l h] at h'
  cases h'
  exact Nat.le_refl _

theorem seqMono_deleteWhere (db : Db) (id0 : UUID) :
    SeqMono db (deleteWhere db id0) := by
  intro id r r' h h'
  rw [lookupBy_deleteWhere] at h'
  by_cases hj : id = id0
  · rw [if_pos hj] at h'
    cases h'
  · rw [if_neg hj, h] at h'
    cases h'
    exact Nat.le_refl _

theorem seqMono_batchLoop {db db' : Db} {ds : List NewDataset} {now : Time}
    (h : batchLoop db ds now = .ok db') : SeqMono db db' := by
  intro id r r' hr hr'
  rw [batchLoop_preserves h hr] at hr'
  cases hr'
  exact Nat.le_refl _

theorem seqMono_commitOrRollback {db : Db} {res : Except DbError Db}
    (h : ∀ db1, res = .ok db1 → SeqMono db db1) :
    SeqMono db (commitOrRollback db res).1 := by
  cases res with
  | error e => exact SeqMono.rfl db
  | ok db1 => exact h db1 (by rfl)

theorem seqMono_txUpdate {db : Db} {id : UUID} {blob : JObj} {now : Time} :
    ∀ db1, Tx.update db id blob now = .ok db1 → SeqMono db db1 := by
  intro db1 h1
  obtain ⟨_, hdb⟩ := Tx.update_ok_iff.mp h1
  rw [hdb]
  exact seqMono_updateWhere db id _ (fun r => Nat.le_succ _)

theorem seqMono_txPatch {db : Db} {id : UUID} {blob : JObj} {now : Time} :
    ∀ db1, Tx.patch db id blob now = .ok db1 → SeqMono db db1 := by
  intro db1 h1
  obtain ⟨_, hdb⟩ := Tx.patch_ok_iff.mp h1
  rw [hdb]
  exact seqMono_updateWhere db id _ (fun r => Nat.le_succ _)

theorem seqMono_txService {db : Db} {id : UUID} {blob : JObj} {now : Time} :
    ∀ db1, Tx.updateByService db id blob now = .ok db1 → SeqMono db db1 := by
  intro db1 h1
  obtain ⟨_, hdb⟩ := Tx.updateByService_ok_iff.mp h1
  rw [hdb]
  exact seqMono_updateWhere db id
    (fun r => { r with synced := now, seq := r.seq + 1, blob := blob })
    (fun r => Nat.le_succ _)

/-- Every single operation leaves `seq` of every surviving record at
least where it was. -/
theorem applyOp_seqMono (lf : Nat → Except DbError Family) (now : Time)
    (db : Db) (op : Op) : SeqMono db (applyOp lf now db op).1 := by
  cases op with
  | changeOwnerTo id uid =>
    show SeqMono db (updateWhere db id (fun r => { r with owner := uid }))
    exact seqMono_updateWhere db id (fun r => { r with owner := uid })
      (fun r => Nat.le_refl _)
  | store d =>
    show SeqMono db (commitOrRollback db (Tx.Store db d now)).1
    refine seqMono_commitOrRollback (fun db1 h1 => ?_)
    unfold Tx.Store at h1
    cases hl : lookupBy db d.id with
    | some _ => rw [hl] at h1; cases h1
    | none => rw [hl] at h1; cases h1; exact seqMono_append db _
  | batchStore ds =>
    show SeqMono db (DB.BatchStore db ds now).1
    unfold DB.BatchStore
    split
    · exact SeqMono.rfl db
    · next db1 h => exact seqMono_batchLoop h
  | update id blob =>
    exact seqMono_commitOrRollback seqMono_txUpdate
  | updateWithOwner id blob owner =>
    show SeqMono db (DB.UpdateWithOwner db id blob owner now).1
    unfold DB.UpdateWithOwner
    split
    · exact SeqMono.rfl db
    · exact seqMono_commitOrRollback seqMono_txUpdate
  | patch id blob =>
    exact seqMono_commitOrRollback seqMono_txPatch
  | patchWithOwner id blob owner =>
    show SeqMono db (DB.PatchWithOwner db id blob owner now).1
    unfold DB.PatchWithOwner
    split
    · exact SeqMono.rfl db
    · exact seqMono_commitOrRollback seqMono_txPatch
  | smartUpdateWithOwner id blob owner =>
    show SeqMono db (DB.SmartUpdateWithOwner lf db id blob owner now).1
    unfold DB.SmartUpdateWithOwner
    split
    · exact SeqMono.rfl db
    · split
      · exact SeqMono.rfl db
      · split
        · exact SeqMono.rfl db
        · split
          · exact seqMono_commitOrRollback seqMono_txPatch
          · exact seqMono_commitOrRollback seqMono_txUpdate
  | serviceUpdate id blob =>
    exact seqMono_commitOrRollback seqMono_txService
  | storePublished id blob =>
    show SeqMono db (DB.StorePublished db id blob now).1
    unfold DB.StorePublished
    split
    · exact seqMono_updateWhere db id (fun r => { r with blob := blob, published := true, synced := now, seq := r.seq + 1 }) (fun r => Nat.le_succ _)
    · exact SeqMono.rfl db
  | clone id newid blob =>
    show SeqMono db (DB.Clone db id newid blob).1
    unfold DB.Clone
    split
    · split
      · exact seqMono_append db _
      · exact SeqMono.rfl db
    · exact SeqMono.rfl db
  | markPublished id published =>
    show SeqMono db (DB.MarkPublished db id published now).1
    unfold DB.MarkPublished
    split
    · exact SeqMono.rfl db
    · next db1 heq =>
      obtain ⟨_, hdb⟩ := Tx.markPublished_ok_iff.mp heq
      rw [hdb]
      exact seqMono_updateWhere db id
        (fun r => { r with published := published, synced := now })
        (fun r => Nat.le_refl _)
  | markPublishedWithOwner id owner published =>
    show SeqMono db (DB.MarkPublishedWithOwner db id owner published now).1
    unfold DB.MarkPublishedWithOwner
    split
    · exact SeqMono.rfl db
    · split
      · exact SeqMono.rfl db
      · next db1 heq =>
        obtain ⟨_, hdb⟩ := Tx.markPublished_ok_iff.mp heq
        rw [hdb]
        exact seqMono_updateWhere db id
          (fun r => { r with published := published, synced := now })
          (fun r => Nat.le_refl _)
  | delete id owner =>
    show SeqMono db (DB.Delete db id owner).1
    unfold DB.Delete
    split
    · split
      · exact SeqMono.rfl db
      · split
        · exact seqMono_deleteWhere db id
        · exact SeqMono.rfl db
    · split
      · exact seqMono_deleteWhere db id
      · exact SeqMono.rfl db

/-! ## Run equations for the guarded operations -/

theorem except_cases {ε α : Type} (x : Except ε α) :
    (∃ a, x = .ok a) ∨ (∃ e, x = .error e) := by
  cases x with
  | error e => exact Or.inr ⟨e, rfl⟩
  | ok a => exact Or.inl ⟨a, rfl⟩

theorem DB.UpdateWithOwner_eq_err {db : Db} {id : UUID} {blob : JObj}
    {owner : UUID} {now : Time} {e : DbError}
    (h : Tx.CheckOwner db id owner = .error e) :
    DB.UpdateWithOwner db id blob owner now = (db, some e) := by
  unfold DB.UpdateWithOwner
  simp only [h]

theorem DB.UpdateWithOwner_eq_ok {db : Db} {id : UUID} {blob : JObj}
    {owner : UUID} {now : Time} {u : Unit}
    (h : Tx.CheckOwner db id owner = .ok u) :
    DB.UpdateWithOwner db id blob owner now =
      commitOrRollback db (Tx.update db id blob now) := by
  unfold DB.UpdateWithOwner
  simp only [h]

theorem DB.PatchWithOwner_eq_err {db : Db} {id : UUID} {blob : JObj}
    {owner : UUID} {now : Time} {e : DbError}
    (h : Tx.CheckOwner db id owner = .error e) :
    DB.PatchWithOwner db id blob owner now = (db, some e) := by
  unfold DB.PatchWithOwner
  simp only [h]

theorem DB.PatchWithOwner_eq_ok {db : Db} {id : UUID} {blob : JObj}
    {owner : UUID} {now : Time} {u : Unit}
    (h : Tx.CheckOwner db id owner = .ok u) :
    DB.PatchWithOwner db id blob owner now =
      commitOrRollback db (Tx.patch db id blob now) := by
  unfold DB.PatchWithOwner
  simp only [h]

theorem DB.SmartUpdateWithOwner_eq_guardErr (lf : Nat → Except DbError Family)
    {db : Db} {id : UUID} (blob : JObj) {owner : UUID} (now : Time)
    {e : DbError} (h : Tx.CheckOwner db id owner = .error e) :
    DB.SmartUpdateWithOwner lf db id blob owner now = (db, some e) := by
  unfold DB.SmartUpdateWithOwner
  simp only [h]

theorem DB.SmartUpdateWithOwner_eq_famErr (lf : Nat → Except DbError Family)
    {db : Db} {id : UUID} (blob : JObj) {owner : UUID} (now : Time)
    {u : Unit} {e : DbError} (h1 : Tx.CheckOwner db id owner = .ok u)
    (h2 : Tx.getFamily db id = .error e) :
    DB.SmartUpdateWithOwner lf db id blob owner now = (db, some e) := by
  unfold DB.SmartUpdateWithOwner
  simp only [h1, h2]

theorem DB.SmartUpdateWithOwner_eq_lookupErr
    {lf : Nat → Except DbError Family} {db : Db} {id : UUID} (blob : JObj)
    {owner : UUID} (now : Time) {u : Unit} {famId : Nat} {e : DbError}
    (h1 : Tx.CheckOwner db id owner = .ok u)
    (h2 : Tx.getFamily db id = .ok famId) (h3 : lf famId = .error e) :
    DB.SmartUpdateWithOwner lf db id blob owner now = (db, some e) := by
  unfold DB.SmartUpdateWithOwner
  simp only [h1, h2, h3]

theorem DB.SmartUpdateWithOwner_eq_ok
    {lf : Nat → Except DbError Family} {db : Db} {id : UUID} (blob : JObj)
    {owner : UUID} (now : Time) {u : Unit} {famId : Nat} {family : Family}
    (h1 : Tx.CheckOwner db id owner = .ok u)
    (h2 : Tx.getFamily db id = .ok famId) (h3 : lf famId = .ok family) :
    DB.SmartUpdateWithOwner lf db id blob owner now =
      commitOrRollback db
        (if family.isPartial = true then Tx.patch db id blob now
         else Tx.update db id blob now) := by
  unfold DB.SmartUpdateWithOwner
  simp only [h1, h2, h3]

theorem DB.MarkPublished_eq_err {db : Db} {id : UUID} {pub : Bool}
    {now : Time} {e : DbError} (h : Tx.markPublished db id pub now = .error e) :
    DB.MarkPublished db id pub now = (db, some e) := by
  unfold DB.MarkPublished
  simp only [h]

theorem DB.MarkPublished_eq_ok {db : Db} {id : UUID} {pub : Bool}
    {now : Time} {db1 : Db} (h : Tx.markPublished db id pub now = .ok db1) :
    DB.MarkPublished db id pub now = (db1, none) := by
  unfold DB.MarkPublished
  simp only [h]

theorem DB.MarkPublishedWithOwner_eq_guardErr {db : Db} {id : UUID}
    {owner : UUID} {pub : Bool} {now : Time} {e : DbError}
    (h : Tx.CheckOwner db id owner = .error e) :
    DB.MarkPublishedWithOwner db id owner pub now = (db, some e) := by
  unfold DB.MarkPublishedWithOwner
  simp only [h]

theorem DB.MarkPublishedWithOwner_eq_err {db : Db} {id : UUID}
    {owner : UUID} {pub : Bool} {now : Time} {u : Unit} {e : DbError}
    (h1 : Tx.CheckOwner db id owner = .ok u)
    (h2 : Tx.markPublished db id pub now = .error e) :
    DB.MarkPublishedWithOwner db id owner pub now = (db, some e) := by
  unfold DB.MarkPublishedWithOwner
  simp only [h1, h2]

theorem DB.MarkPublishedWithOwner_eq_ok {db : Db} {id : UUID}
    {owner : UUID} {pub : Bool} {now : Time} {u : Unit} {db1 : Db}
    (h1 : Tx.CheckOwner db id owner = .ok u)
    (h2 : Tx.markPublished db id pub now = .ok db1) :
    DB.MarkPublishedWithOwner db id owner pub now = (db1, none) := by
  unfold DB.MarkPublishedWithOwner
  simp only [h1, h2]

/-! ## Exact increment on successful content writes -/

theorem commitOrRollback_none {db : Db} {res : Except DbError Db}
    (h : (commitOrRollback db res).2 = none) :
    res = .ok (commitOrRollback db res).1 := by
  cases res with
  | error e => simp [commitOrRollback] at h
  | ok db1 => rfl

theorem lookup_updateWhere_self {β : Type} {l : List (UUID × β)} {id : UUID}
    (f : β → β) {r : β} (hr : lookupBy l id = some r) :
    lookupBy (updateWhere l id f) id = some (f r) := by
  rw [lookupBy_updateWhere, if_pos rfl, hr]
  rfl

theorem contentCore_update {db : Db} {id : UUID} {blob : JObj} {now : Time}
    {p : Db × Option DbError}
    (hp : p = commitOrRollback db (Tx.update db id blob now))
    (hok : p.2 = none) {r : Row} (hr : lookupBy db id = some r) :
    ∃ r', lookupBy p.1 id = some r' ∧ r'.seq = r.seq + 1 := by
  subst hp
  obtain ⟨hc, hdb⟩ := Tx.update_ok_iff.mp (commitOrRollback_none hok)
  refine ⟨{ r with modified := now, seq := r.seq + 1, blob := blob }, ?_, rfl⟩
  rw [hdb]
  exact lookup_updateWhere_self _ hr

theorem contentCore_patch {db : Db} {id : UUID} {blob : JObj} {now : Time}
    {p : Db × Option DbError}
    (hp : p = commitOrRollback db (Tx.patch db id blob now))
    (hok : p.2 = none) {r : Row} (hr : lookupBy db id = some r) :
    ∃ r', lookupBy p.1 id = some r' ∧ r'.seq = r.seq + 1 := by
  subst hp
  obtain ⟨hc, hdb⟩ := Tx.patch_ok_iff.mp (commitOrRollback_none hok)
  refine ⟨{ r with modified := now, seq := r.seq + 1, blob := jsonbConcat r.blob blob }, ?_, rfl⟩
  rw [hdb]
  exact lookup_updateWhere_self _ hr

theorem contentCore_service {db : Db} {id : UUID} {blob : JObj} {now : Time}
    {p : Db × Option DbError}
    (hp : p = commitOrRollback db (Tx.updateByService db id blob now))
    (hok : p.2 = none) {r : Row} (hr : lookupBy db id = some r) :
    ∃ r', lookupBy p.1 id = some r' ∧ r'.seq = r.seq + 1 := by
  subst hp
  obtain ⟨hc, hdb⟩ := Tx.updateByService_ok_iff.mp (commitOrRollback_none hok)
  refine ⟨{ r with synced := now, seq := r.seq + 1, blob := blob }, ?_, rfl⟩
  rw [hdb]
  exact lookup_updateWhere_self _ hr

/-- A successfully accepted content-mutating write bumps the target's
`seq` by exactly one. -/
theorem applyOp_contentWrite (lf : Nat → Except DbError Family) (now : Time)
    (db : Db) (op : Op) (id : UUID) (ht : contentWriteTarget op = some id)
    (hok : (applyOp lf now db op).2 = none) (r : Row)
    (hr : lookupBy db id = some r) :
    ∃ r', lookupBy (applyOp lf now db op).1 id = some r' ∧
      r'.seq = r.seq + 1 := by
  cases op with
  | changeOwnerTo id0 uid => exact Option.noConfusion ht
  | store d => exact Option.noConfusion ht
  | batchStore ds => exact Option.noConfusion ht
  | clone id0 newid blob => exact Option.noConfusion ht
  | markPublished id0 pub => exact Option.noConfusion ht
  | markPublishedWithOwner id0 owner pub => exact Option.noConfusion ht
  | delete id0 owner => exact Option.noConfusion ht
  | update id0 blob =>
    cases Option.some.inj ht
    exact contentCore_update rfl hok hr
  | patch id0 blob =>
    cases Option.some.inj ht
    exact contentCore_patch rfl hok hr
  | serviceUpdate id0 blob =>
    cases Option.some.inj ht
    exact contentCore_service rfl hok hr
  | updateWithOwner id0 blob owner =>
    cases Option.some.inj ht
    rcases except_cases (Tx.CheckOwner db id owner) with ⟨u, heq⟩ | ⟨e, heq⟩
    · have he : applyOp lf now db (Op.updateWithOwner id blob owner) =
          commitOrRollback db (Tx.update db id blob now) :=
        DB.UpdateWithOwner_eq_ok heq
      rw [he] at hok ⊢
      exact contentCore_update rfl hok hr
    · have he : applyOp lf now db (Op.updateWithOwner id blob owner) =
          (db, some e) := DB.UpdateWithOwner_eq_err heq
      rw [he] at hok
      exact absurd hok (by simp)
  | patchWithOwner id0 blob owner =>
    cases Option.some.inj ht
    rcases except_cases (Tx.CheckOwner db id owner) with ⟨u, heq⟩ | ⟨e, heq⟩
    · have he : applyOp lf now db (Op.patchWithOwner id blob owner) =
          commitOrRollback db (Tx.patch db id blob now) :=
        DB.PatchWithOwner_eq_ok heq
      rw [he] at hok ⊢
      exact contentCore_patch rfl hok hr
    · have he : applyOp lf now db (Op.patchWithOwner id blob owner) =
          (db, some e) := DB.PatchWithOwner_eq_err heq
      rw [he] at hok
      exact absurd hok (by simp)
  | smartUpdateWithOwner id0 blob owner =>
    cases Option.some.inj ht
    rcases except_cases (Tx.CheckOwner db id owner) with ⟨u, heq1⟩ | ⟨e, heq1⟩
    · rcases except_cases (Tx.getFamily db id) with ⟨famId, heq2⟩ | ⟨e, heq2⟩
      · rcases except_cases (lf famId) with ⟨family, heq3⟩ | ⟨e, heq3⟩
        · have he : applyOp lf now db (Op.smartUpdateWithOwner id blob owner) =
              commitOrRollback db
                (if family.isPartial = true then Tx.patch db id blob now
                 else Tx.update db id blob now) :=
            DB.SmartUpdateWithOwner_eq_ok blob now heq1 heq2 heq3
          rw [he] at hok ⊢
          by_cases hpart : family.isPartial = true
          · rw [if_pos hpart] at hok ⊢
            exact contentCore_patch rfl hok hr
          · rw [if_neg hpart] at hok ⊢
            exact contentCore_update rfl hok hr
        · have he : applyOp lf now db (Op.smartUpdateWithOwner id blob owner) =
              (db, some e) :=
            DB.SmartUpdateWithOwner_eq_lookupErr blob now heq1 heq2 heq3
          rw [he] at hok
          exact absurd hok (by simp)
      · have he : applyOp lf now db (Op.smartUpdateWithOwner id blob owner) =
            (db, some e) :=
          DB.SmartUpdateWithOwner_eq_famErr lf blob now heq1 heq2
        rw [he] at hok
        exact absurd hok (by simp)
    · have he : applyOp lf now db (Op.smartUpdateWithOwner id blob owner) =
          (db, some e) := DB.SmartUpdateWithOwner_eq_guardErr lf blob now heq1
      rw [he] at hok
      exact absurd hok (by simp)
  | storePublished id0 blob =>
    cases Option.some.inj ht
    have hp : applyOp lf now db (Op.storePublished id blob) =
        DB.StorePublished db id blob now := rfl
    rw [hp] at hok ⊢
    unfold DB.StorePublished at hok ⊢
    by_cases hc : countMatching db id = 1
    · rw [if_pos hc] at hok ⊢
      show ∃ r', lookupBy (updateWhere db id (fun r => { r with blob := blob, published := true, synced := now, seq := r.seq + 1 })) id = some r' ∧ r'.seq = r.seq + 1
      exact ⟨_, lookup_updateWhere_self _ hr, rfl⟩
    · rw [if_neg hc] at hok
      exact absurd hok (by simp)

/-- A successful publish-only transition rewrites exactly `published`
and `synced` of the target. -/
theorem applyOp_publishOnly (lf : Nat → Except DbError Family) (now : Time)
    (db : Db) (op : Op) (id : UUID) (pub : Bool)
    (ht : publishOnlyTarget op = some (id, pub))
    (hok : (applyOp lf now db op).2 = none) (r : Row)
    (hr : lookupBy db id = some r) :
    lookupBy (applyOp lf now db op).1 id =
      some { r with published := pub, synced := now } := by
  cases op with
  | changeOwnerTo id0 uid => exact Option.noConfusion ht
  | store d => exact Option.noConfusion ht
  | batchStore ds => exact Option.noConfusion ht
  | clone id0 newid blob => exact Option.noConfusion ht
  | update id0 blob => exact Option.noConfusion ht
  | updateWithOwner id0 blob owner => exact Option.noConfusion ht
  | patch id0 blob => exact Option.noConfusion ht
  | patchWithOwner id0 blob owner => exact Option.noConfusion ht
  | smartUpdateWithOwner id0 blob owner => exact Option.noConfusion ht
  | serviceUpdate id0 blob => exact Option.noConfusion ht
  | storePublished id0 blob => exact Option.noConfusion ht
  | delete id0 owner => exact Option.noConfusion ht
  | markPublished id0 pub0 =>
    obtain ⟨rfl, rfl⟩ : id0 = id ∧ pub0 = pub := by
      simpa [publishOnlyTarget] using ht
    rcases except_cases (Tx.markPublished db id0 pub0 now) with ⟨db1, heq⟩ | ⟨e, heq⟩
    · have he : applyOp lf now db (Op.markPublished id0 pub0) = (db1, none) :=
        DB.MarkPublished_eq_ok heq
      rw [he]
      obtain ⟨hc, hdb⟩ := Tx.markPublished_ok_iff.mp heq
      show lookupBy db1 id0 = some { r with published := pub0, synced := now }
      rw [hdb]
      exact lookup_updateWhere_self _ hr
    · have he : applyOp lf now db (Op.markPublished id0 pub0) = (db, some e) :=
        DB.MarkPublished_eq_err heq
      rw [he] at hok
      exact absurd hok (by simp)
  | markPublishedWithOwner id0 owner pub0 =>
    obtain ⟨rfl, rfl⟩ : id0 = id ∧ pub0 = pub := by
      simpa [publishOnlyTarget] using ht
    rcases except_cases (Tx.CheckOwner db id0 owner) with ⟨u, heq0⟩ | ⟨e, heq0⟩
    · rcases except_cases (Tx.markPublished db id0 pub0 now) with ⟨db1, heq⟩ | ⟨e, heq⟩
      · have he : applyOp lf now db (Op.markPublishedWithOwner id0 owner pub0) =
            (db1, none) := DB.MarkPublishedWithOwner_eq_ok heq0 heq
        rw [he]
        obtain ⟨hc, hdb⟩ := Tx.markPublished_ok_iff.mp heq
        show lookupBy db1 id0 = some { r with published := pub0, synced := now }
        rw [hdb]
        exact lookup_updateWhere_self _ hr
      · have he : applyOp lf now db (Op.markPublishedWithOwner id0 owner pub0) =
            (db, some e) := DB.MarkPublishedWithOwner_eq_err heq0 heq
        rw [he] at hok
        exact absurd hok (by simp)
    · have he : applyOp lf now db (Op.markPublishedWithOwner id0 owner pub0) =
          (db, some e) := DB.MarkPublishedWithOwner_eq_guardErr heq0
      rw [he] at hok
      exact absurd hok (by simp)

theorem existsThrough_head {lf : Nat → Except DbError Family} {db : Db}
    {id : UUID} {ops : List (Op × Time)} (h : existsThrough lf db id ops) :
    (lookupBy db id).isSome = true := by
  cases ops with
  | nil => exact h
  | cons p rest =>
    cases p with
    | mk op t => exact h.1

/-- Sequence version of monotonicity: along any run of operations during
which the record stays present, its `seq` never goes down. -/
theorem applySeq_seqMono (lf : Nat → Except DbError Family) (id : UUID) :
    ∀ (ops : List (Op × Time)) (db : Db) (r r' : Row),
      existsThrough lf db id ops → lookupBy db id = some r →
      lookupBy (applySeq lf db ops) id = some r' → r.seq ≤ r'.seq := by
  intro ops
  induction ops with
  | nil =>
    intro db r r' hex hr hr'
    rw [applySeq] at hr'
    rw [hr] at hr'
    cases hr'
    exact Nat.le_refl _
  | cons p rest ih =>
    intro db r r' hex hr hr'
    cases p with
    | mk op t =>
      rw [applySeq] at hr'
      have hex2 : existsThrough lf (applyOp lf t db op).1 id rest := hex.2
      obtain ⟨r1, hr1⟩ := Option.isSome_iff_exists.mp (existsThrough_head hex2)
      exact Nat.le_trans (applyOp_seqMono lf t db op id r r1 hr hr1)
        (ih _ r1 r' hex2 hr1 hr')

/-! ## Remaining helper lemmas -/

theorem countMatching_zero_of_lookup_none {β : Type} {l : List (UUID × β)}
    {id : UUID} (h : lookupBy l id = none) : countMatching l id = 0 := by
  induction l with
  | nil => rfl
  | cons kv rest ih =>
    rw [lookupBy_cons] at h
    by_cases hk : kv.1 = id
    · rw [if_pos hk] at h
      cases h
    · rw [if_neg hk] at h
      rw [countMatching, if_neg hk, ih h]

theorem updateWhere_of_none {β : Type} {l : List (UUID × β)} {id : UUID}
    (f : β → β) (h : lookupBy l id = none) : updateWhere l id f = l := by
  induction l with
  | nil => rfl
  | cons kv rest ih =>
    rw [lookupBy_cons] at h
    by_cases hk : kv.1 = id
    · rw [if_pos hk] at h
      cases h
    · rw [if_neg hk] at h
      simp only [updateWhere, List.map_cons, if_neg hk]
      rw [show List.map (fun kv => if kv.1 = id then (kv.1, f kv.2) else kv) rest = updateWhere rest id f from rfl, ih h]

theorem Tx.update_err_of_none {db : Db} {id : UUID} (blob : JObj) (now : Time)
    (h : lookupBy db id = none) : Tx.update db id blob now = .error .notFound := by
  unfold Tx.update
  rw [if_neg]
  rw [countMatching_zero_of_lookup_none h]
  exact Nat.zero_ne_one

theorem Tx.patch_err_of_none {db : Db} {id : UUID} (blob : JObj) (now : Time)
    (h : lookupBy db id = none) : Tx.patch db id blob now = .error .notFound := by
  unfold Tx.patch
  rw [if_neg]
  rw [countMatching_zero_of_lookup_none h]
  exact Nat.zero_ne_one

theorem commitOrRollback_some {db : Db} {res : Except DbError Db}
    {e : DbError} (h : (commitOrRollback db res).2 = some e) :
    (commitOrRollback db res).1 = db := by
  cases res with
  | error e0 => rfl
  | ok db1 => cases h

theorem DB.Get_found {db : Db} {id : UUID} {r : Row}
    (h : lookupBy db id = some r) :
    DB.Get db id = .ok { id := id, creator := r.creator, owner := r.owner,
                         family := r.family, schema := r.schema,
                         blob := r.blob, valid := r.valid } := by
  unfold DB.Get
  rw [h]
  rfl

theorem DB.Get_absent {db : Db} {id : UUID} (h : lookupBy db id = none) :
    DB.Get db id = .err .notFound := by
  unfold DB.Get
  rw [h]
  rfl

theorem batchLoop_fail_at {now : Time} :
    ∀ (k : Nat) (ds : List NewDataset) (db dbk : Db) (d : NewDataset)
      (e : DbError),
      batchLoop db (ds.take k) now = .ok dbk → ds[k]? = some d →
      Tx.Store dbk d now = .error e → batchLoop db ds now = .error e := by
  intro k
  induction k with
  | zero =>
    intro ds db dbk d e htake hget hfail
    rw [List.take_zero, batchLoop] at htake
    cases htake
    cases ds with
    | nil => cases hget
    | cons d0 rest =>
      have hd : d0 = d := by simpa using hget
      subst hd
      rw [batchLoop, hfail]
  | succ k ih =>
    intro ds db dbk d e htake hget hfail
    cases ds with
    | nil => cases hget
    | cons d0 rest =>
      rw [List.take_succ_cons, batchLoop] at htake
      cases hs : Tx.Store db d0 now with
      | error e0 => rw [hs] at htake; cases htake
      | ok db1 =>
        rw [hs] at htake
        have hget' : rest[k]? = some d := by simpa using hget
        rw [batchLoop, hs]
        exact ih rest db1 dbk d e htake hget' hfail

/-! ## The claims -/

/-- C1: `SmartUpdateWithOwner` runs the ownership guard first (a guard
error is returned as is, state unchanged), then the family read and the
family policy lookup inside the same transaction (each error returned as
is, state unchanged), and dispatches the mutation to the merge-patch
primitive exactly when the family's `IsPartial()` is true and to the
full-replace primitive when it is false; any failing step yields that
step's error with no partial effect on the stored state. -/
theorem smartUpdateWithOwner_dispatch (lf : Nat → Except DbError Family)
    (db : Db) (id : UUID) (blob : JObj) (owner : UUID) (now : Time) :
    (∀ e, Tx.CheckOwner db id owner = .error e →
       DB.SmartUpdateWithOwner lf db id blob owner now = (db, some e)) ∧
    (∀ u e, Tx.CheckOwner db id owner = .ok u → Tx.getFamily db id = .error e →
       DB.SmartUpdateWithOwner lf db id blob owner now = (db, some e)) ∧
    (∀ u famId e, Tx.CheckOwner db id owner = .ok u →
       Tx.getFamily db id = .ok famId → lf famId = .error e →
       DB.SmartUpdateWithOwner lf db id blob owner now = (db, some e)) ∧
    (∀ u famId family, Tx.CheckOwner db id owner = .ok u →
       Tx.getFamily db id = .ok famId → lf famId = .ok family →
       DB.SmartUpdateWithOwner lf db id blob owner now =
         commitOrRollback db
           (if family.isPartial = true then Tx.patch db id blob now
            else Tx.update db id blob now)) ∧
    (∀ e, (DB.SmartUpdateWithOwner lf db id blob owner now).2 = some e →
       (DB.SmartUpdateWithOwner lf db id blob owner now).1 = db) := by
  refine ⟨?_, ?_, ?_, ?_, ?_⟩
  · intro e h
    exact DB.SmartUpdateWithOwner_eq_guardErr lf blob now h
  · intro u e h1 h2
    exact DB.SmartUpdateWithOwner_eq_famErr lf blob now h1 h2
  · intro u famId e h1 h2 h3
    exact DB.SmartUpdateWithOwner_eq_lookupErr blob now h1 h2 h3
  · intro u famId family h1 h2 h3
    exact DB.SmartUpdateWithOwner_eq_ok blob now h1 h2 h3
  · intro e h
    rcases except_cases (Tx.CheckOwner db id owner) with ⟨u, heq1⟩ | ⟨e1, heq1⟩
    · rcases except_cases (Tx.getFamily db id) with ⟨famId, heq2⟩ | ⟨e2, heq2⟩
      · rcases except_cases (lf famId) with ⟨family, heq3⟩ | ⟨e3, heq3⟩
        · rw [DB.SmartUpdateWithOwner_eq_ok blob now heq1 heq2 heq3] at h ⊢
          exact commitOrRollback_some h
        · rw [DB.SmartUpdateWithOwner_eq_lookupErr blob now heq1 heq2 heq3]
      · rw [DB.SmartUpdateWithOwner_eq_famErr lf blob now heq1 heq2]
    · rw [DB.SmartUpdateWithOwner_eq_guardErr lf blob now heq1]

/-- Witness for C1 at a concrete two-family state: the merge-patch
family record dispatches to the merge-patch primitive and the
full-replace family record to the full-replace primitive. -/
theorem smartUpdateWithOwner_dispatch_witness :
    DB.SmartUpdateWithOwner lf0 dbW 1 pW 100 9 =
      commitOrRollback dbW (Tx.patch dbW 1 pW 9) ∧
    DB.SmartUpdateWithOwner lf0 dbW 2 pW 100 9 =
      commitOrRollback dbW (Tx.update dbW 2 pW 9) := by
  constructor
  · exact (smartUpdateWithOwner_dispatch lf0 dbW 1 pW 100 9).2.2.2.1
      () 1 { isPartial := true, key := "research_dataset" } rfl rfl rfl
  · exact (smartUpdateWithOwner_dispatch lf0 dbW 2 pW 100 9).2.2.2.1
      () 2 { isPartial := false, key := "" } rfl rfl rfl

/-- C2: on an existing record, `Patch` commits with the blob replaced by
the shallow top-level merge of the previous blob with the patch — keys
present in the patch overwrite or add with the patch's value taken
wholesale (not recursively merged), keys absent from the patch are
preserved — with `seq` increased by exactly 1 and `modified` set to the
statement's timestamp, every other record untouched; a following `Get`
returns exactly the merged blob.  On an absent id zero rows are affected
and `Patch` fails with `NotFound`, state unchanged. -/
theorem patch_merge_semantics (db : Db) (id : UUID) (p : JObj) (now : Time)
    (hwf : WF db) :
    (∀ r, lookupBy db id = some r →
       (DB.Patch db id p now).2 = none ∧
       lookupBy (DB.Patch db id p now).1 id =
         some { r with blob := jsonbConcat r.blob p, seq := r.seq + 1, modified := now } ∧
       (∀ j, j ≠ id → lookupBy (DB.Patch db id p now).1 j = lookupBy db j) ∧
       DB.Get (DB.Patch db id p now).1 id =
         .ok { id := id, creator := r.creator, owner := r.owner,
               family := r.family, schema := r.schema,
               blob := jsonbConcat r.blob p, valid := r.valid } ∧
       (∀ k, jlookup (jsonbConcat r.blob p) k =
          match jlookup p k with
          | some v => some v
          | none => jlookup r.blob k)) ∧
    (lookupBy db id = none → DB.Patch db id p now = (db, some .notFound)) := by
  constructor
  · intro r hr
    have hc := countMatching_one_of_wf hwf hr
    have hpe : Tx.patch db id p now =
        .ok (updateWhere db id (fun r => { r with modified := now, seq := r.seq + 1, blob := jsonbConcat r.blob p })) :=
      Tx.patch_ok_iff.mpr ⟨hc, rfl⟩
    have hDP1 : (DB.Patch db id p now).1 =
        updateWhere db id (fun r => { r with modified := now, seq := r.seq + 1, blob := jsonbConcat r.blob p }) := by
      unfold DB.Patch
      rw [hpe]
      rfl
    have hDP2 : (DB.Patch db id p now).2 = none := by
      unfold DB.Patch
      rw [hpe]
      rfl
    refine ⟨hDP2, ?_, ?_, ?_, ?_⟩
    · rw [hDP1]
      exact lookup_updateWhere_self _ hr
    · intro j hj
      rw [hDP1, lookupBy_updateWhere, if_neg hj]
    · rw [hDP1]
      exact DB.Get_found (lookup_updateWhere_self _ hr)
    · intro k
      exact jlookup_jsonbConcat r.blob p k
  · intro h
    have hpe := Tx.patch_err_of_none p now h
    unfold DB.Patch
    rw [hpe]
    rfl

/-- Witness for C2 at a concrete state: the patch overwrites the
`title` key, keeps the `size` key, bumps `seq` from 5 to 6, and the
following `Get` returns the merged blob. -/
theorem patch_merge_semantics_witness :
    (DB.Patch dbW 1 pW 7).2 = none ∧
    lookupBy (DB.Patch dbW 1 pW 7).1 1 =
      some { rA with blob := jsonbConcat rA.blob pW, seq := rA.seq + 1, modified := 7 } ∧
    DB.Get (DB.Patch dbW 1 pW 7).1 1 =
      .ok { id := 1, creator := rA.creator, owner := rA.owner,
            family := rA.family, schema := rA.schema,
            blob := jsonbConcat rA.blob pW, valid := rA.valid } := by
  have h := (patch_merge_semantics dbW 1 pW 7 (by decide)).1 rA rfl
  exact ⟨h.1, h.2.1, h.2.2.2.1⟩

/-- C3: on an existing record, `Update` commits with the blob replaced
wholesale by the new blob (no merging with the previous blob), `seq`
increased by exactly 1 and `modified` set, every other record untouched;
a following `Get` returns exactly the new blob.  On an absent id zero
rows are affected and `Update` fails with `NotFound`, state unchanged. -/
theorem update_replace_semantics (db : Db) (id : UUID) (b : JObj) (now : Time)
    (hwf : WF db) :
    (∀ r, lookupBy db id = some r →
       (DB.Update db id b now).2 = none ∧
       lookupBy (DB.Update db id b now).1 id =
         some { r with blob := b, seq := r.seq + 1, modified := now } ∧
       (∀ j, j ≠ id → lookupBy (DB.Update db id b now).1 j = lookupBy db j) ∧
       DB.Get (DB.Update db id b now).1 id =
         .ok { id := id, creator := r.creator, owner := r.owner,
               family := r.family, schema := r.schema,
               blob := b, valid := r.valid }) ∧
    (lookupBy db id = none → DB.Update db id b now = (db, some .notFound)) := by
  constructor
  · intro r hr
    have hc := countMatching_one_of_wf hwf hr
    have hpe : Tx.update db id b now =
        .ok (updateWhere db id (fun r => { r with modified := now, seq := r.seq + 1, blob := b })) :=
      Tx.update_ok_iff.mpr ⟨hc, rfl⟩
    have hDP1 : (DB.Update db id b now).1 =
        updateWhere db id (fun r => { r with modified := now, seq := r.seq + 1, blob := b }) := by
      unfold DB.Update
      rw [hpe]
      rfl
    have hDP2 : (DB.Update db id b now).2 = none := by
      unfold DB.Update
      rw [hpe]
      rfl
    refine ⟨hDP2, ?_, ?_, ?_⟩
    · rw [hDP1]
      exact lookup_updateWhere_self _ hr
    · intro j hj
      rw [hDP1, lookupBy_updateWhere, if_neg hj]
    · rw [hDP1]
      exact DB.Get_found (lookup_updateWhere_self _ hr)
  · intro h
    have hpe := Tx.update_err_of_none b now h
    unfold DB.Update
    rw [hpe]
    rfl

/-- Witness for C3 at a concrete state: the new blob replaces the old
one wholesale (the `size` key of the old blob is gone), `seq` goes from
5 to 6. -/
theorem update_replace_semantics_witness :
    (DB.Update dbW 1 pW 7).2 = none ∧
    lookupBy (DB.Update dbW 1 pW 7).1 1 =
      some { rA with blob := pW, seq := rA.seq + 1, modified := 7 } ∧
    DB.Get (DB.Update dbW 1 pW 7).1 1 =
      .ok { id := 1, creator := rA.creator, owner := rA.owner,
            family := rA.family, schema := rA.schema,
            blob := pW, valid := rA.valid } := by
  have h := (update_replace_semantics dbW 1 pW 7 (by decide)).1 rA rfl
  exact ⟨h.1, h.2.1, h.2.2.2⟩

/-- C4: `CheckOwner(id, principal)` succeeds exactly when a record with
that id exists and its owner equals the principal; it fails with
`NotFound` exactly when no record matches the id, and with `NotOwner`
exactly when the record exists but its owner differs. -/
theorem checkOwner_spec (db : Db) (id : UUID) (p : UUID) :
    (DB.CheckOwner db id p = none ↔
       ∃ r, lookupBy db id = some r ∧ r.owner = p) ∧
    (DB.CheckOwner db id p = some DbError.notFound ↔ lookupBy db id = none) ∧
    (DB.CheckOwner db id p = some DbError.notOwner ↔
       ∃ r, lookupBy db id = some r ∧ r.owner ≠ p) := by
  unfold DB.CheckOwner Tx.CheckOwner
  cases hl : lookupBy db id with
  | none => refine ⟨?_, ?_, ?_⟩ <;> simp [handleError]
  | some r =>
    by_cases ho : r.owner = p
    · refine ⟨?_, ?_, ?_⟩ <;> simp [ho]
    · refine ⟨?_, ?_, ?_⟩ <;> simp [ho]

/-- Witness for C4 at a concrete state: success for the real owner,
`NotFound` for an absent id, `NotOwner` for a wrong principal. -/
theorem checkOwner_spec_witness :
    DB.CheckOwner dbW 1 100 = none ∧
    DB.CheckOwner dbW 9 100 = some DbError.notFound ∧
    DB.CheckOwner dbW 1 55 = some DbError.notOwner := by
  refine ⟨?_, ?_, ?_⟩
  · exact (checkOwner_spec dbW 1 100).1.mpr ⟨rA, rfl, rfl⟩
  · exact (checkOwner_spec dbW 9 100).2.1.mpr rfl
  · exact (checkOwner_spec dbW 1 55).2.2.mpr ⟨rA, rfl, by decide⟩

/-- C5: if the first K inserts of a batch succeed and the insert of the
(K+1)-st dataset then fails with some error, `BatchStore` returns
exactly that error and the stored state is exactly the starting state —
none of the N records is persisted. -/
theorem batchStore_all_or_nothing (db : Db) (ds : List NewDataset)
    (now : Time) (k : Nat) (dbk : Db) (d : NewDataset) (e : DbError)
    (htake : batchLoop db (ds.take k) now = .ok dbk)
    (hget : ds[k]? = some d) (hfail : Tx.Store dbk d now = .error e) :
    DB.BatchStore db ds now = (db, some e) := by
  have h := batchLoop_fail_at k ds db dbk d e htake hget hfail
  unfold DB.BatchStore
  rw [h]

/-- Witness for C5: a batch of two datasets where the second collides
with a stored primary key persists neither and surfaces the engine's
constraint-violation error. -/
theorem batchStore_all_or_nothing_witness :
    DB.BatchStore dbW dsW 7 =
      (dbW, some (.storage "duplicate key value violates unique constraint")) := by
  exact batchStore_all_or_nothing dbW dsW 7 1 (dbW ++ [(3, rNew)]) dDup
    (.storage "duplicate key value violates unique constraint") rfl rfl rfl

/-- C6 (the code, at every input): the SELECT inside Clone's
INSERT…SELECT has no FROM clause, so its column references do not
resolve; the engine rejects the statement, `Clone` returns a storage
error — never `NotFound`, never a copied record — and the state is
unchanged, even when the source record exists (as it does in `dbW`). -/
theorem clone_unresolved_column :
    (∀ (db : Db) (id newid : UUID) (blob : JObj),
       DB.Clone db id newid blob =
         (db, some (.storage "column does not exist"))) ∧
    cloneColumnsResolve = false ∧
    DB.Clone dbW 1 3 pW = (dbW, some (.storage "column does not exist")) := by
  refine ⟨fun db id newid blob => rfl, rfl, rfl⟩

/-- C7: `seq` never decreases — per operation, and along any sequence of
accepted operations throughout which the record exists — increases by
exactly 1 on each successfully accepted content-mutating write (full
replace, merge patch, the dispatched smart update, the service replace,
and `StorePublished`), and publish-only transitions (`MarkPublished`,
`MarkPublishedWithOwner`) rewrite exactly `published` and `synced`,
leaving `seq`, `blob` and every other field unchanged. -/
theorem seq_version_invariant (lf : Nat → Except DbError Family)
    (now : Time) (db : Db) (op : Op) :
    (∀ id r r', lookupBy db id = some r →
       lookupBy (applyOp lf now db op).1 id = some r' → r.seq ≤ r'.seq) ∧
    (∀ ops id r r', existsThrough lf db id ops → lookupBy db id = some r →
       lookupBy (applySeq lf db ops) id = some r' → r.seq ≤ r'.seq) ∧
    (∀ id, contentWriteTarget op = some id → (applyOp lf now db op).2 = none →
       ∀ r, lookupBy db id = some r →
         ∃ r', lookupBy (applyOp lf now db op).1 id = some r' ∧
           r'.seq = r.seq + 1) ∧
    (∀ id pub, publishOnlyTarget op = some (id, pub) →
       (applyOp lf now db op).2 = none →
       ∀ r, lookupBy db id = some r →
         lookupBy (applyOp lf now db op).1 id =
           some { r with published := pub, synced := now }) := by
  refine ⟨?_, ?_, ?_, ?_⟩
  · exact applyOp_seqMono lf now db op
  · intro ops id r r' hex hr hr'
    exact applySeq_seqMono lf id ops db r r' hex hr hr'
  · intro id ht hok r hr
    exact applyOp_contentWrite lf now db op id ht hok r hr
  · intro id pub ht hok r hr
    exact applyOp_publishOnly lf now db op id pub ht hok r hr

/-- Witness for C7: a successful full replace bumps `seq` by exactly 1,
and a successful publish mark leaves everything but `published` and
`synced` as it was. -/
theorem seq_version_invariant_witness :
    (∃ r', lookupBy (applyOp lf0 7 dbW (Op.update 1 pW)).1 1 = some r' ∧
       r'.seq = rA.seq + 1) ∧
    lookupBy (applyOp lf0 7 dbW (Op.markPublished 2 true)).1 2 =
      some { rB with published := true, synced := 7 } := by
  constructor
  · exact (seq_version_invariant lf0 7 dbW (Op.update 1 pW)).2.2.1 1 rfl rfl rA rfl
  · exact (seq_version_invariant lf0 7 dbW (Op.markPublished 2 true)).2.2.2
      2 true rfl rfl rB rfl

/-- C8 (the code, at a concrete state): with records owned by principal
100 present, `ListAllForUid` errors at the binding stage of the first
row because the Scan destinations are passed by value, not as pointers;
with no matching row it returns the empty list without error. -/
theorem listAllForUid_scan_error :
    DB.ListAllForUid dbW 100 =
      .error (.storage "Scan: destination is not a pointer") ∧
    DB.ListAllForUid dbW 55 = .ok [] := ⟨rfl, rfl⟩

/-- C9: `ChangeOwnerTo` always returns success (it performs no
affected-row check, so also when no record matches the id), rewrites
only the `owner` field of the matching record, and leaves every other
record — and, for an absent id, the entire state — unchanged. -/
theorem changeOwnerTo_frame (db : Db) (id : UUID) (uid : UUID) :
    (DB.ChangeOwnerTo db id uid).2 = none ∧
    (∀ r, lookupBy db id = some r →
       lookupBy (DB.ChangeOwnerTo db id uid).1 id =
         some { r with owner := uid }) ∧
    (∀ j, j ≠ id → lookupBy (DB.ChangeOwnerTo db id uid).1 j = lookupBy db j) ∧
    (lookupBy db id = none → (DB.ChangeOwnerTo db id uid).1 = db) := by
  refine ⟨rfl, ?_, ?_, ?_⟩
  · intro r hr
    show lookupBy (updateWhere db id (fun r => { r with owner := uid })) id =
      some { r with owner := uid }
    exact lookup_updateWhere_self _ hr
  · intro j hj
    show lookupBy (updateWhere db id (fun r => { r with owner := uid })) j =
      lookupBy db j
    rw [lookupBy_updateWhere, if_neg hj]
  · intro h
    show updateWhere db id (fun r => { r with owner := uid }) = db
    exact updateWhere_of_none _ h

/-- Witness for C9: reassigning the owner of record 1 succeeds, touches
only its `owner` field, leaves record 2 alone, and on an absent id the
state is exactly unchanged. -/
theorem changeOwnerTo_frame_witness :
    (DB.ChangeOwnerTo dbW 1 55).2 = none ∧
    lookupBy (DB.ChangeOwnerTo dbW 1 55).1 1 = some { rA with owner := 55 } ∧
    lookupBy (DB.ChangeOwnerTo dbW 1 55).1 2 = some rB ∧
    (DB.ChangeOwnerTo dbW 9 55).1 = dbW := by
  have h := changeOwnerTo_frame dbW 1 55
  have h9 := changeOwnerTo_frame dbW 9 55
  refine ⟨h.1, h.2.1 rA rfl, ?_, h9.2.2.2 rfl⟩
  rw [h.2.2.1 2 (by decide)]
  rfl

/-- C10: a matched row of `Get` (and of the internal projected read
`get`) with `family`, `schema` and `valid` populated is returned without
error through `SetData`/`SetValid`; a matched row with any of these
columns null reaches the unguarded pointer dereference (a nil-deref
panic), not an error branch; no row at all is a `NotFound` error. -/
theorem get_nil_deref_characterization :
    (∀ (rdb : List (UUID × RawGetRow)) (id : UUID),
       (lookupBy rdb id = none → DB.GetRaw rdb id = .err .notFound) ∧
       (∀ row, lookupBy rdb id = some row →
          (∀ f s v, row.family = some f → row.schema = some s →
             row.valid = some v →
             DB.GetRaw rdb id =
               .ok { id := row.id, creator := row.creator, owner := row.owner,
                     family := f, schema := s, blob := row.blob,
                     valid := v }) ∧
          ((row.family = none ∨ row.schema = none ∨ row.valid = none) →
             DB.GetRaw rdb id = .nilDeref))) ∧
    (∀ (tdb : List (UUID × RawTxRow)) (id : UUID) (row : RawTxRow),
       lookupBy tdb id = some row →
       (∀ f s, row.family = some f → row.schema = some s →
          Tx.getRaw tdb id =
            .ok { id := row.id, creator := row.creator, owner := row.owner,
                  family := f, schema := s, blob := row.blob,
                  valid := false }) ∧
       ((row.family = none ∨ row.schema = none) →
          Tx.getRaw tdb id = .nilDeref)) := by
  constructor
  · intro rdb id
    constructor
    · intro h
      simp only [DB.GetRaw, DB.getScan, h]
      rfl
    · intro row hrow
      constructor
      · intro f s v hf hs hv
        simp only [DB.GetRaw, DB.getScan, hrow, hf, hs, hv, setData]
      · intro hnull
        rcases hnull with hf | hs | hv
        · simp only [DB.GetRaw, DB.getScan, hrow, hf]
        · cases hfam : row.family with
          | none => simp only [DB.GetRaw, DB.getScan, hrow, hfam]
          | some f => simp only [DB.GetRaw, DB.getScan, hrow, hfam, hs, setData]
        · cases hfam : row.family with
          | none => simp only [DB.GetRaw, DB.getScan, hrow, hfam]
          | some f =>
            cases hsch : row.schema with
            | none => simp only [DB.GetRaw, DB.getScan, hrow, hfam, hsch]
            | some s0 =>
              simp only [DB.GetRaw, DB.getScan, hrow, hfam, hsch, hv, setData]
  · intro tdb id row hrow
    constructor
    · intro f s hf hs
      simp only [Tx.getRaw, Tx.getScan, hrow, hf, hs, setData]
    · intro hnull
      rcases hnull with hf | hs
      · simp only [Tx.getRaw, Tx.getScan, hrow, hf]
      · cases hfam : row.family with
        | none => simp only [Tx.getRaw, Tx.getScan, hrow, hfam]
        | some f => simp only [Tx.getRaw, Tx.getScan, hrow, hfam, hs, setData]

/-- Witness for C10: a populated row is returned without error, a row
with a null `family` reaches the nil dereference, and the projected read
behaves the same. -/
theorem get_nil_deref_characterization_witness :
    DB.GetRaw rdbPop 1 =
      .ok { id := 1, creator := 10, owner := 100, family := 1,
            schema := "s", blob := [], valid := true } ∧
    DB.GetRaw rdbNull 1 = .nilDeref ∧
    Tx.getRaw tdbPop 1 =
      .ok { id := 1, creator := 10, owner := 100, family := 1,
            schema := "s", blob := [], valid := false } := by
  have h := get_nil_deref_characterization
  refine ⟨?_, ?_, ?_⟩
  · exact ((h.1 rdbPop 1).2 rgPop rfl).1 1 "s" true rfl rfl rfl
  · exact ((h.1 rdbNull 1).2 rgNull rfl).2 (Or.inl rfl)
  · exact (h.2 tdbPop 1 rtPop rfl).1 1 "s" rfl rfl
